import Mathlib

set_option maxRecDepth 4000

/-!
# Verification of the FP2-Assignment-Site bubble-simulation core

This file embeds, over exact rationals, the bubble-spawn-and-decay scheduler of
`src/fp2-assignment-site/src/components/flow_plot/chart.js` (the final
`FlowChart` variant): the profit interpolator, the birth-time scheduler
`scheduleBubbleBirths`, the reconcile effect that runs on every clock change,
bubble creation/recycling, the opacity lifecycle function, the solver
node-update (reheat) logic, and the CSV loading step.  JavaScript numbers are
modelled as rationals (`ℚ`); `NaN` produced by coercing a non-numeric string is
modelled as `Option.none` where it matters (the loader).
-/

namespace FlowChart

/-- One parsed CSV record: `{ year, investor, noninvestor }` as produced by the
CSV-load effect of the chart. -/
structure CsvRecord where
  year : ℚ
  investor : ℚ
  noninvestor : ℚ
  deriving DecidableEq, Repr, Inhabited

/-- The two bubble kinds (`'investor'` / `'noninvestor'` strings in the source). -/
inductive Kind where
  | investor
  | noninvestor
  deriving DecidableEq, Repr

/-- A bubble `{ id, type, birthTime, x, y }`.  The source draws `id` from
`Math.random().toString(36)`; here ids are drawn from a deterministic counter
threaded through the simulation state, which preserves freshness. -/
structure Bubble where
  id : ℕ
  type : Kind
  birthTime : ℚ
  x : ℚ
  y : ℚ
  deriving DecidableEq, Repr

/-- Source constant `BUBBLE_VALUE = 5000`. -/
def BUBBLE_VALUE : ℚ := 5000

/-- Source constant `LIFE_SPAN_YEARS = 1.0`. -/
def LIFE_SPAN_YEARS : ℚ := 1

/-- Source constant `FADE_PORTION = 0.05`. -/
def FADE_PORTION : ℚ := 5 / 100

/-- Source constant `CANVAS_HEIGHT = 700`. -/
def CANVAS_HEIGHT : ℚ := 700

/-- Source constant `SPAWN_X = 180`. -/
def SPAWN_X : ℚ := 180

/-- Source constant `SPAWN_Y = CANVAS_HEIGHT/2`. -/
def SPAWN_Y : ℚ := CANVAS_HEIGHT / 2

/-- JavaScript `Math.round`: rounds half toward positive infinity. -/
def jsRound (q : ℚ) : ℤ := ⌊q + 1 / 2⌋

/-- Function `lerp(x0, y0, x1, y1, t)` from the chart: guarded linear interpolation. -/
def lerp (x0 y0 x1 y1 t : ℚ) : ℚ :=
  if x1 = x0 then y0
  else y0 + (t - x0) / (x1 - x0) * (y1 - y0)

/-- The interval-search loop of `getInterpolatedProfits`: the first index `i`
with `csvData[i].year <= t && t < csvData[i+1].year`, if any. -/
def findIntervalIdx : List CsvRecord → ℚ → Option ℕ
  | d0 :: d1 :: rest, t =>
    if d0.year ≤ t ∧ t < d1.year then some 0
    else (findIntervalIdx (d1 :: rest) t).map (· + 1)
  | _, _ => none

/-- Function `getInterpolatedProfits(t)`: clamped at the first/last record year, linear
interpolation on the bracketing interval otherwise.  The source's loop leaves
`i1 = 0` when no interval matches, hence `getD 0` on the search result. -/
def getInterpolatedProfits (csvData : List CsvRecord) (t : ℚ) : ℚ × ℚ :=
  match csvData with
  | [] => (0, 0)
  | first :: _ =>
    let lastR := csvData.getLastD first
    if t ≤ first.year then (first.investor, first.noninvestor)
    else if t ≥ lastR.year then (lastR.investor, lastR.noninvestor)
    else
      let i1 := (findIntervalIdx csvData t).getD 0
      let d0 := csvData.getD i1 default
      let d1 := csvData.getD (i1 + 1) default
      (lerp d0.year d0.investor d1.year d1.investor t,
       lerp d0.year d0.noninvestor d1.year d1.noninvestor t)

/-- Function `getDataProfit(t)`: in the source its body is a verbatim copy of
`getInterpolatedProfits`. -/
def getDataProfit (csvData : List CsvRecord) (t : ℚ) : ℚ × ℚ :=
  getInterpolatedProfits csvData t

/-- Insertion step of a stable ascending sort: place `a` before the first
element it compares `le` to. -/
def insertSorted {α : Type} (le : α → α → Bool) (a : α) : List α → List α
  | [] => [a]
  | b :: rest => if le a b then a :: b :: rest else b :: insertSorted le a rest

/-- Stable comparison sort (insertion sort), modelling JavaScript's
`Array.prototype.sort`: the ECMAScript specification guarantees a stable sort
consistent with the comparator, which any stable comparison sort computes; on
totally ordered keys without ties the sorted permutation is unique. -/
def stableSort {α : Type} (le : α → α → Bool) (l : List α) : List α :=
  l.foldr (insertSorted le) []

/-- The per-kind schedule of bubble birth times (`scheduledBubbles` state). -/
structure Schedule where
  investor : List ℚ
  noninvestor : List ℚ
  deriving DecidableEq, Repr

/-- The scheduler's alive filter over a list of birth times:
`birthTime <= timePoint && (timePoint - birthTime) <= LIFE_SPAN_YEARS`. -/
def aliveScheduleCount (sched : List ℚ) (timePoint : ℚ) : ℕ :=
  (sched.filter fun birthTime =>
    decide (birthTime ≤ timePoint ∧ timePoint - birthTime ≤ LIFE_SPAN_YEARS)).length

/-- The grid `for (let timePoint = startYear; timePoint <= endYear; timePoint += 0.1)`
visited inside `scheduleBubbleBirths`, in exact arithmetic. -/
def gridPoints (startYear endYear : ℚ) : List ℚ :=
  if startYear ≤ endYear then
    (List.range (((endYear - startYear) * 10).floor.toNat + 1)).map
      fun k => startYear + (k : ℚ) / 10
  else []

/-- The body of the scheduler's grid loop at one `timePoint`: compute the target
counts by `Math.round(profit / BUBBLE_VALUE)`, count scheduled bubbles alive at
`timePoint`, and append `Math.max(0, target - alive)` birth times, the `j`-th
offset by `-j * 0.001`. -/
def scheduleBody (csvData : List CsvRecord) (state : List ℚ × List ℚ)
    (timePoint : ℚ) : List ℚ × List ℚ :=
  let profits := getDataProfit csvData timePoint
  let targetInvCount := jsRound (profits.1 / BUBBLE_VALUE)
  let targetNonInvCount := jsRound (profits.2 / BUBBLE_VALUE)
  let aliveInvCount := aliveScheduleCount state.1 timePoint
  let aliveNonInvCount := aliveScheduleCount state.2 timePoint
  let invBubblesToAdd := (targetInvCount - aliveInvCount).toNat
  let nonInvBubblesToAdd := (targetNonInvCount - aliveNonInvCount).toNat
  (state.1 ++ (List.range invBubblesToAdd).map (fun j => timePoint - (j : ℚ) / 1000),
   state.2 ++ (List.range nonInvBubblesToAdd).map (fun j => timePoint - (j : ℚ) / 1000))

/-- The adjacent record pairs `(csvData[i], csvData[i+1])` iterated by the
scheduler's outer loop. -/
def adjacentPairs : List CsvRecord → List (CsvRecord × CsvRecord)
  | a :: b :: rest => (a, b) :: adjacentPairs (b :: rest)
  | _ => []

/-- Function `scheduleBubbleBirths(csvData)`: guard `csvData.length < 2`, the grid loop
over every adjacent-year interval, the staggered pre-start batch at
`initialYear - LIFE_SPAN_YEARS * 0.9 + i * 0.01`, and the final ascending sort. -/
def scheduleBubbleBirths (csvData : List CsvRecord) : Schedule :=
  if csvData.length < 2 then { investor := [], noninvestor := [] }
  else
    let afterGrid := (adjacentPairs csvData).foldl
      (fun st pair => (gridPoints pair.1.year pair.2.year).foldl (scheduleBody csvData) st)
      ([], [])
    let initialYear := (csvData.headD default).year
    let initialProfits := getDataProfit csvData initialYear
    let initialInvCount := (jsRound (initialProfits.1 / BUBBLE_VALUE)).toNat
    let initialNonInvCount := (jsRound (initialProfits.2 / BUBBLE_VALUE)).toNat
    let invSchedule := afterGrid.1 ++ (List.range initialInvCount).map
      (fun i => initialYear - LIFE_SPAN_YEARS * (9 / 10) + (i : ℚ) / 100)
    let nonInvSchedule := afterGrid.2 ++ (List.range initialNonInvCount).map
      (fun i => initialYear - LIFE_SPAN_YEARS * (9 / 10) + (i : ℚ) / 100)
    { investor := stableSort (fun a b => decide (a ≤ b)) invSchedule,
      noninvestor := stableSort (fun a b => decide (a ≤ b)) nonInvSchedule }

/-- The bubble list together with the id counter that stands in for
`Math.random()` id generation. -/
structure SimState where
  bubbles : List Bubble
  nextId : ℕ
  deriving DecidableEq, Repr

/-- Function `createBubble(type, birthTime)`: a fresh bubble at the spawn point. -/
def createBubble (id : ℕ) (type : Kind) (birthTime : ℚ) : Bubble :=
  { id := id, type := type, birthTime := birthTime, x := SPAWN_X, y := SPAWN_Y }

/-- The reconcile effect's keep filter:
`b.birthTime > currentTime || (age >= 0 && age <= LIFE_SPAN_YEARS)`. -/
def keepBubble (currentTime : ℚ) (b : Bubble) : Bool :=
  decide (b.birthTime > currentTime) ||
    (decide (currentTime - b.birthTime ≥ 0) &&
     decide (currentTime - b.birthTime ≤ LIFE_SPAN_YEARS))

/-- The search `existingBubbles.find(b => b.birthTime > currentTime)` followed by the
in-place recycle (`birthTime = ...; x = 150; y = 300`): returns the list with
the first future bubble of the kind overwritten, or `none` when no future
bubble of that kind exists.  Searching the full list restricted to the kind is
equivalent to searching the source's by-kind snapshot, because the snapshot
aliases the same objects and newly pushed bubbles are never future. -/
def recycleFuture (type : Kind) (currentTime birthTime : ℚ) :
    List Bubble → Option (List Bubble)
  | [] => none
  | b :: rest =>
    if b.type = type ∧ b.birthTime > currentTime then
      some ({ b with birthTime := birthTime, x := 150, y := 300 } :: rest)
    else (recycleFuture type currentTime birthTime rest).map (b :: ·)

/-- One iteration of `missingBirthTimes.forEach`: recycle a future bubble of
the kind if one exists, otherwise push `createBubble(type, birthTime)`. -/
def processMissing (type : Kind) (currentTime : ℚ) (st : SimState)
    (birthTime : ℚ) : SimState :=
  match recycleFuture type currentTime birthTime st.bubbles with
  | some bs => { st with bubbles := bs }
  | none =>
    { bubbles := st.bubbles ++ [createBubble st.nextId type birthTime],
      nextId := st.nextId + 1 }

/-- Projection `scheduledBubbles[type]`. -/
def schedOf (sched : Schedule) : Kind → List ℚ
  | Kind.investor => sched.investor
  | Kind.noninvestor => sched.noninvestor

/-- The `shouldExist` list: scheduled times with
`time <= currentTime && (currentTime - time) <= LIFE_SPAN_YEARS`. -/
def shouldExistTimes (sched : List ℚ) (currentTime : ℚ) : List ℚ :=
  sched.filter fun time =>
    decide (time ≤ currentTime ∧ currentTime - time ≤ LIFE_SPAN_YEARS)

/-- The per-kind body of the reconcile effect's `['investor','noninvestor'].forEach`:
compute `shouldExist`, the birth times of already-born bubbles of the kind, the
missing birth times, and process each missing time by recycle-or-create. -/
def processType (sched : Schedule) (currentTime : ℚ) (type : Kind)
    (st : SimState) : SimState :=
  let scheduledTimes := schedOf sched type
  let shouldExist := shouldExistTimes scheduledTimes currentTime
  let existingBirthTimes :=
    ((st.bubbles.filter fun b => decide (b.type = type)).filter
      fun b => decide (b.birthTime ≤ currentTime)).map (·.birthTime)
  let missingBirthTimes := shouldExist.filter fun time =>
    ! existingBirthTimes.contains time
  missingBirthTimes.foldl (processMissing type currentTime) st

/-- The reconcile effect (`useEffect` on `[currentTime, scheduledBubbles]`):
bail out when the CSV data or the investor schedule is empty, drop bubbles that
are neither future nor alive, then process both kinds in order. -/
def reconcile (csvData : List CsvRecord) (sched : Schedule) (currentTime : ℚ)
    (st : SimState) : SimState :=
  if csvData.length = 0 ∨ sched.investor.length = 0 then st
  else
    let st1 : SimState :=
      { st with bubbles := st.bubbles.filter (keepBubble currentTime) }
    let st2 := processType sched currentTime Kind.investor st1
    processType sched currentTime Kind.noninvestor st2

/-- A bubble is alive at `t` when its age `t - birthTime` lies in
`[0, LIFE_SPAN_YEARS]`. -/
def isAlive (currentTime : ℚ) (b : Bubble) : Bool :=
  decide (0 ≤ currentTime - b.birthTime) &&
    decide (currentTime - b.birthTime ≤ LIFE_SPAN_YEARS)

/-- The number of alive bubbles of a kind in a bubble list. -/
def aliveCount (type : Kind) (currentTime : ℚ) (bs : List Bubble) : ℕ :=
  (bs.filter fun b => decide (b.type = type) && isAlive currentTime b).length

/-- Function `getOpacity`, generalized over the lifespan and fade-portion constants as
in the source's formula: 0 outside `[0, lifespan]`, a linear fade-in ramp, a
linear fade-out ramp, and 1 in the steady state. -/
def getOpacity (age lifespan fadePortion : ℚ) : ℚ :=
  if age < 0 ∨ age > lifespan then 0
  else
    let fadeInEnd := lifespan * fadePortion
    let fadeOutStart := lifespan * (1 - fadePortion)
    if age < fadeInEnd then age / fadeInEnd
    else if age > fadeOutStart then
      let remain := lifespan - fadeOutStart
      1 - (age - fadeOutStart) / remain
    else 1

/-- The source's `getOpacity(b)` at the chart's constants. -/
def getOpacityB (currentTime : ℚ) (b : Bubble) : ℚ :=
  getOpacity (currentTime - b.birthTime) LIFE_SPAN_YEARS FADE_PORTION

/-- The solver node-update effect (`useEffect` on `[bubbles]`): given the
previous node count and current alpha, the new alpha is `0.8` when the alive
count changed, `0.1` when it is unchanged but alpha decayed below `0.1`, and
is left untouched otherwise. -/
def updateSimAlpha (prevNodesCount : ℕ) (alpha : ℚ) (aliveBubblesCount : ℕ) : ℚ :=
  if prevNodesCount ≠ aliveBubblesCount then 8 / 10
  else if alpha < 1 / 10 then 1 / 10
  else alpha

/-- A raw CSV row after JavaScript numeric coercion of its three fields:
`none` models the `NaN` produced by `+field` on a non-numeric string. -/
structure RawRow where
  year : Option ℚ
  investorProfit : Option ℚ
  noninvestorProfit : Option ℚ
  deriving DecidableEq, Repr

/-- A record as built by the CSV-load effect; a `none` field records that the
coercion produced `NaN`. -/
structure LoadedRecord where
  year : Option ℚ
  investor : Option ℚ
  noninvestor : Option ℚ
  deriving DecidableEq, Repr

/-- The row mapping of the CSV-load effect:
`{ year: +d.year, investor: +d['total investor profit'], noninvestor: +d['noninvestor profit'] }`.
No validation is performed; a `NaN` year flows straight into the record. -/
def toLoadedRecord (d : RawRow) : LoadedRecord :=
  { year := d.year, investor := d.investorProfit, noninvestor := d.noninvestorProfit }

/-- The `.sort((a, b) => a.year - b.year)` comparator: ascending by year; a
comparison against a `NaN` year returns `NaN`, which the engine treats as 0
(keep relative order), modelled as `true` here. -/
def loadSortLE (a b : LoadedRecord) : Bool :=
  match a.year, b.year with
  | some x, some y => decide (x ≤ y)
  | _, _ => true

/-- The CSV-load effect's data pipeline: map every raw row to a record, then
sort ascending by year.  There is no error path: the function is total and
produces one record per row. -/
def loadCsv (raw : List RawRow) : List LoadedRecord :=
  stableSort loadSortLE (raw.map toLoadedRecord)

/-- The record list of the spec's worked scenario:
`[(2000, 0, 0), (2001, 20000, 10000)]`. -/
def scenRecords : List CsvRecord :=
  [⟨2000, 0, 0⟩, ⟨2001, 20000, 10000⟩]

/-- The schedule the scheduler derives from the scenario records. -/
def scenSched : Schedule := scheduleBubbleBirths scenRecords

/-- A record list whose profit falls steeply: investor profit 50000 at year
2000 and 0 at year 2001. -/
def fallingRecords : List CsvRecord := [⟨2000, 50000, 0⟩, ⟨2001, 0, 0⟩]

/-- First forward scrub of the oscillation scenario: reconcile at
`t = 2001.3` from the empty bubble set. -/
def oscState1 : SimState := reconcile scenRecords scenSched (20013 / 10) ⟨[], 0⟩

/-- Backward scrub to `t = 2000.3`. -/
def oscState2 : SimState := reconcile scenRecords scenSched (20003 / 10) oscState1

/-- Forward again to the same `t = 2001.3`. -/
def oscState3 : SimState := reconcile scenRecords scenSched (20013 / 10) oscState2

/-- Second backward scrub to `t = 2000.3`. -/
def oscState4 : SimState := reconcile scenRecords scenSched (20003 / 10) oscState3

/-- Second return to the same `t = 2001.3`. -/
def oscState5 : SimState := reconcile scenRecords scenSched (20013 / 10) oscState4

/-- Characterizes a bubble of the reconcile output that did not pass through
unchanged: either the in-place overwrite of a bubble that was future
(`birthTime > currentTime`) before being recycled, with position reset to
`(150, 300)`, or a freshly created bubble sitting at the spawn point.  In both
cases the resulting birth time is in the past (`≤ currentTime`). -/
def RecycledOrCreated (t : ℚ) (source : List Bubble) (c : Bubble) : Prop :=
  (c.birthTime ≤ t ∧ t - c.birthTime ≤ LIFE_SPAN_YEARS) ∧
  ((∃ b0 ∈ source, b0.birthTime > t ∧
      c = { b0 with birthTime := c.birthTime, x := 150, y := 300 }) ∨
   (c.x = SPAWN_X ∧ c.y = SPAWN_Y))

end FlowChart

namespace FlowChart

section

attribute [local semireducible] Rat.add Rat.sub Rat.mul Rat.inv

/-- C6: for records `[(2000, 0, 0), (2001, 20000, 10000)]` with
`BUBBLE_VALUE = 5000`, reconciling at `t = 2000.5` from the empty bubble set
yields exactly 2 alive investor bubbles and exactly 1 alive non-investor
bubble. -/
theorem scenario_reconcile_counts :
    aliveCount Kind.investor (4001 / 2)
        (reconcile scenRecords scenSched (4001 / 2) ⟨[], 0⟩).bubbles = 2 ∧
    aliveCount Kind.noninvestor (4001 / 2)
        (reconcile scenRecords scenSched (4001 / 2) ⟨[], 0⟩).bubbles = 1 := by
  decide

/-- C1 counterexample: with records `[(2000, 50000, 0), (2001, 0, 0)]`,
reconciling at `t = 2000.5` from the empty bubble set leaves 10 alive investor
bubbles while `max 0 (round(interpolatedProfit(t).investor / BUBBLE_VALUE))`
is 5: the discrepancy is 5 bubbles, far above the claimed tolerance of one. -/
theorem reconcile_tracking_counterexample :
    aliveCount Kind.investor (4001 / 2)
        (reconcile fallingRecords (scheduleBubbleBirths fallingRecords) (4001 / 2)
          ⟨[], 0⟩).bubbles = 10 ∧
    max 0 (jsRound ((getInterpolatedProfits fallingRecords (4001 / 2)).1 / BUBBLE_VALUE)) = 5 ∧
    ¬ ((10 : ℤ) - 5 ≤ 1) := by
  decide

/-- Evaluation of the first forward scrub of the oscillation scenario. -/
theorem oscState1_eq :
    oscState1 =
      ⟨[⟨0, Kind.investor, 10002 / 5, 180, 350⟩, ⟨1, Kind.investor, 20007 / 10, 180, 350⟩,
        ⟨2, Kind.investor, 20009 / 10, 180, 350⟩, ⟨3, Kind.noninvestor, 20003 / 10, 180, 350⟩,
        ⟨4, Kind.noninvestor, 10004 / 5, 180, 350⟩], 5⟩ := by
  decide

/-- Evaluation of the backward scrub: the future bubble of birth time 2000.4
is recycled to the missing time 2000.2 with position reset to `(150, 300)`. -/
theorem oscState2_eq :
    oscState2 =
      ⟨[⟨0, Kind.investor, 10001 / 5, 150, 300⟩, ⟨1, Kind.investor, 20007 / 10, 180, 350⟩,
        ⟨2, Kind.investor, 20009 / 10, 180, 350⟩, ⟨3, Kind.noninvestor, 20003 / 10, 180, 350⟩,
        ⟨4, Kind.noninvestor, 10004 / 5, 180, 350⟩], 5⟩ := by
  rw [oscState2, oscState1_eq]
  decide

/-- Evaluation of the return to `t = 2001.3`: the recycled bubble died, its
original birth time 2000.4 is missing again, no future bubble remains, and a
brand-new bubble (id 5) is created. -/
theorem oscState3_eq :
    oscState3 =
      ⟨[⟨1, Kind.investor, 20007 / 10, 180, 350⟩, ⟨2, Kind.investor, 20009 / 10, 180, 350⟩,
        ⟨3, Kind.noninvestor, 20003 / 10, 180, 350⟩, ⟨4, Kind.noninvestor, 10004 / 5, 180, 350⟩,
        ⟨5, Kind.investor, 10002 / 5, 180, 350⟩], 6⟩ := by
  rw [oscState3, oscState2_eq]
  decide

/-- Evaluation of the second backward scrub: again a future bubble (id 1, birth
time 2000.7) is recycled to 2000.2. -/
theorem oscState4_eq :
    oscState4 =
      ⟨[⟨1, Kind.investor, 10001 / 5, 150, 300⟩, ⟨2, Kind.investor, 20009 / 10, 180, 350⟩,
        ⟨3, Kind.noninvestor, 20003 / 10, 180, 350⟩, ⟨4, Kind.noninvestor, 10004 / 5, 180, 350⟩,
        ⟨5, Kind.investor, 10002 / 5, 180, 350⟩], 6⟩ := by
  rw [oscState4, oscState3_eq]
  decide

/-- Evaluation of the second return to `t = 2001.3`: birth time 2000.7 is
missing again and yet another bubble (id 6) is created. -/
theorem oscState5_eq :
    oscState5 =
      ⟨[⟨2, Kind.investor, 20009 / 10, 180, 350⟩, ⟨3, Kind.noninvestor, 20003 / 10, 180, 350⟩,
        ⟨4, Kind.noninvestor, 10004 / 5, 180, 350⟩, ⟨5, Kind.investor, 10002 / 5, 180, 350⟩,
        ⟨6, Kind.investor, 20007 / 10, 180, 350⟩], 7⟩ := by
  rw [oscState5, oscState4_eq]
  decide

/-- C3 counterexample: scrubbing forward to `t = 2001.3`, back to
`t = 2000.3`, and forward again to the same `t = 2001.3` (twice over) on the
scenario data grows the ever-created bubble counter on every forward pass:
5 bubbles after the first pass, 6 after the next return, 7 after the one after
that.  The total number of bubbles ever created does not stabilize. -/
theorem oscillation_growth_counterexample :
    oscState1.nextId = 5 ∧ oscState3.nextId = 6 ∧ oscState5.nextId = 7 := by
  rw [oscState1_eq, oscState3_eq, oscState5_eq]
  exact ⟨rfl, rfl, rfl⟩

/-- C7 counterexample: recycling overwrites the future bubble's position to
`(150, 300)`, while a newly created bubble spawns at
`(SPAWN_X, SPAWN_Y) = (180, 350)`: the two admission points are not the same
coordinate. -/
theorem recycle_spawn_mismatch_counterexample :
    (processMissing Kind.investor 0 ⟨[⟨7, Kind.investor, 1, 5, 6⟩], 8⟩ 0).bubbles =
        [⟨7, Kind.investor, 0, 150, 300⟩] ∧
    createBubble 8 Kind.investor 0 = ⟨8, Kind.investor, 0, 180, 350⟩ ∧
    ¬ ((150 : ℚ) = SPAWN_X ∧ (300 : ℚ) = SPAWN_Y) := by
  decide

/-- C8 counterexample: with the node count unchanged (3 = 3) and alpha decayed
to `0.05`, the solver-update effect still raises alpha to `0.1` — a reheat
without any alive-set membership change. -/
theorem reheat_without_change_counterexample :
    updateSimAlpha 3 (1 / 20) 3 = 1 / 10 ∧ ¬ ((1 / 10 : ℚ) = 1 / 20) := by
  decide

end

/-- C8 (amended): alpha is reset to `0.8` exactly when the alive count differs
from the previous node count; when the count is unchanged the new alpha is
`max alpha 0.1` — a gentle nudge up to `0.1` whenever alpha decayed below it,
and untouched otherwise. -/
theorem updateSimAlpha_spec (prevCount aliveCnt : ℕ) (alpha : ℚ) :
    (prevCount ≠ aliveCnt → updateSimAlpha prevCount alpha aliveCnt = 8 / 10) ∧
    (prevCount = aliveCnt → updateSimAlpha prevCount alpha aliveCnt = max alpha (1 / 10)) := by
  constructor
  · intro h
    simp [updateSimAlpha, h]
  · intro h
    subst h
    simp only [updateSimAlpha]
    rw [if_neg fun hc => hc rfl]
    split_ifs with hlt
    · exact (max_eq_right hlt.le).symm
    · exact (max_eq_left (not_lt.mp hlt)).symm

/-- Witness for C8 (amended) at concrete inputs: counts 2 ≠ 4 give a full
reheat to 0.8; equal counts 5 = 5 with alpha 0.02 give `max 0.02 0.1`. -/
theorem updateSimAlpha_spec_witness :
    updateSimAlpha 2 (1 / 2) 4 = 8 / 10 ∧
    updateSimAlpha 5 (1 / 50) 5 = max (1 / 50) (1 / 10) :=
  ⟨(updateSimAlpha_spec 2 4 (1 / 2)).1 (by decide),
   (updateSimAlpha_spec 5 5 (1 / 50)).2 rfl⟩

/-- C9 counterexample: a raw row whose year coerces to `NaN` (modelled as
`none`) is not rejected: the loader returns a record for it and raises
nothing. -/
theorem loader_nan_year_counterexample :
    loadCsv [⟨none, some 1000, some 2000⟩] = [⟨none, some 1000, some 2000⟩] := by
  decide

/-- Inserting one element grows a list's length by one. -/
theorem insertSorted_length {α : Type} (le : α → α → Bool) (a : α) (l : List α) :
    (insertSorted le a l).length = l.length + 1 := by
  induction l with
  | nil => rfl
  | cons b rest ih =>
    simp only [insertSorted]
    split_ifs
    · simp
    · simp [ih]

/-- The stable sort is a permutation in particular in length. -/
theorem stableSort_length {α : Type} (le : α → α → Bool) (l : List α) :
    (stableSort le l).length = l.length := by
  induction l with
  | nil => rfl
  | cons a rest ih =>
    simp only [stableSort, List.foldr_cons] at ih ⊢
    rw [insertSorted_length, ih, List.length_cons]

/-- C9 (amended): the loader is total and produces exactly one record per
input row — a non-numeric year yields a record with a `NaN` year rather than
a raised error. -/
theorem loadCsv_total (raw : List RawRow) : (loadCsv raw).length = raw.length := by
  simp [loadCsv, stableSort_length]

/-- Members of the `shouldExist` list satisfy the alive-window bounds. -/
theorem shouldExistTimes_mem {sched : List ℚ} {t τ : ℚ}
    (h : τ ∈ shouldExistTimes sched t) : τ ≤ t ∧ t - τ ≤ LIFE_SPAN_YEARS := by
  have := List.of_mem_filter h
  simpa using this

/-- When no bubble of the kind is future, the recycle search fails. -/
theorem recycleFuture_eq_none {k : Kind} {t bt : ℚ} {bs : List Bubble}
    (h : ∀ b ∈ bs, ¬(b.type = k ∧ b.birthTime > t)) :
    recycleFuture k t bt bs = none := by
  induction bs with
  | nil => rfl
  | cons b rest ih =>
    simp only [recycleFuture]
    rw [if_neg (h b (List.mem_cons_self b rest)),
      ih fun c hc => h c (List.mem_cons_of_mem b hc)]
    rfl

/-- When some bubble of the kind is future, the recycle search succeeds. -/
theorem recycleFuture_ne_none {k : Kind} {t bt : ℚ} {bs : List Bubble} {b : Bubble}
    (hb : b ∈ bs) (hk : b.type = k) (hf : b.birthTime > t) :
    recycleFuture k t bt bs ≠ none := by
  induction bs with
  | nil => cases hb
  | cons c rest ih =>
    simp only [recycleFuture]
    by_cases hc : c.type = k ∧ c.birthTime > t
    · rw [if_pos hc]
      exact fun h => Option.noConfusion h
    · rw [if_neg hc]
      rcases List.mem_cons.mp hb with rfl | hmem
      · exact absurd ⟨hk, hf⟩ hc
      · intro h
        exact ih hmem (Option.map_eq_none.mp h)

/-- Decomposition of a successful recycle: the first future bubble of the kind
is overwritten in place, everything else is untouched. -/
theorem recycleFuture_some_spec {k : Kind} {t bt : ℚ} {bs bs2 : List Bubble}
    (h : recycleFuture k t bt bs = some bs2) :
    ∃ pre b post, bs = pre ++ b :: post ∧ b.type = k ∧ b.birthTime > t ∧
      bs2 = pre ++ { b with birthTime := bt, x := 150, y := 300 } :: post := by
  induction bs generalizing bs2 with
  | nil => cases h
  | cons c rest ih =>
    simp only [recycleFuture] at h
    by_cases hc : c.type = k ∧ c.birthTime > t
    · rw [if_pos hc] at h
      injection h with h
      exact ⟨[], c, rest, rfl, hc.1, hc.2, h.symm⟩
    · rw [if_neg hc] at h
      obtain ⟨l, hl, rfl⟩ := Option.map_eq_some.mp h
      obtain ⟨pre, b, post, rfl, hbk, hbf, rfl⟩ := ih hl
      exact ⟨c :: pre, b, post, rfl, hbk, hbf, rfl⟩

/-- C3 (amended): whenever a missing birth time is processed while some bubble
of the kind is future (`birthTime > currentTime`), that bubble is recycled:
no new bubble is created (the id counter is untouched) and the bubble list
does not grow. -/
theorem recycle_before_create (k : Kind) (t τ : ℚ) (st : SimState)
    (h : ∃ b ∈ st.bubbles, b.type = k ∧ b.birthTime > t) :
    (processMissing k t st τ).nextId = st.nextId ∧
    (processMissing k t st τ).bubbles.length = st.bubbles.length := by
  obtain ⟨b, hb, hk, hf⟩ := h
  unfold processMissing
  rcases hsome : recycleFuture k t τ st.bubbles with _ | bs2
  · exact absurd hsome (recycleFuture_ne_none hb hk hf)
  · obtain ⟨pre, b0, post, hbs, _, _, hbs2⟩ := recycleFuture_some_spec hsome
    refine ⟨rfl, ?_⟩
    rw [hbs, hbs2]
    simp

/-- Witness for C3 (amended): a state holding one future non-investor bubble
processes a missing time by recycling, with counter and length unchanged. -/
theorem recycle_before_create_witness :
    (processMissing Kind.noninvestor 0 ⟨[⟨2, Kind.noninvestor, 2, 9, 9⟩], 3⟩ (-1)).nextId = 3 ∧
    (processMissing Kind.noninvestor 0 ⟨[⟨2, Kind.noninvestor, 2, 9, 9⟩], 3⟩ (-1)).bubbles.length = 1 := by
  have h := recycle_before_create Kind.noninvestor 0 (-1)
    ⟨[⟨2, Kind.noninvestor, 2, 9, 9⟩], 3⟩
    ⟨⟨2, Kind.noninvestor, 2, 9, 9⟩, by decide, by decide, by decide⟩
  exact ⟨h.1, h.2.trans rfl⟩

/-- The id counter never decreases across a recycle-or-create step. -/
theorem processMissing_nextId_le (k : Kind) (t τ : ℚ) (st : SimState) :
    st.nextId ≤ (processMissing k t st τ).nextId := by
  unfold processMissing
  rcases recycleFuture k t τ st.bubbles with _ | bs2
  · exact Nat.le_succ _
  · exact le_refl _

/-- A bubble already born (`birthTime ≤ t`) survives a recycle-or-create step
unchanged. -/
theorem processMissing_preserve {k : Kind} {t τ : ℚ} {st : SimState} {c : Bubble}
    (hc : c ∈ st.bubbles) (hpast : c.birthTime ≤ t) :
    c ∈ (processMissing k t st τ).bubbles := by
  unfold processMissing
  rcases hsome : recycleFuture k t τ st.bubbles with _ | bs2
  · exact List.mem_append_left _ hc
  · obtain ⟨pre, b0, post, hbs, _, hbf, hbs2⟩ := recycleFuture_some_spec hsome
    rw [hbs] at hc
    rw [hbs2]
    rcases List.mem_append.mp hc with hpre | hmid
    · exact List.mem_append_left _ hpre
    · rcases List.mem_cons.mp hmid with rfl | hpost
      · exact absurd hpast (not_le.mpr hbf)
      · exact List.mem_append_right _ (List.mem_cons_of_mem _ hpost)

/-- The multiplicity of any already-born bubble value never decreases across a
recycle-or-create step. -/
theorem processMissing_count {k : Kind} {t τ : ℚ} (st : SimState) (b : Bubble)
    (hpast : b.birthTime ≤ t) :
    st.bubbles.count b ≤ (processMissing k t st τ).bubbles.count b := by
  unfold processMissing
  rcases hsome : recycleFuture k t τ st.bubbles with _ | bs2
  · simp [List.count_append]
  · obtain ⟨pre, b0, post, hbs, _, hbf, hbs2⟩ := recycleFuture_some_spec hsome
    rw [hbs, hbs2]
    have hne : ¬ b = b0 := fun he => absurd hpast (not_le.mpr (he ▸ hbf))
    have h1 : List.count b (b0 :: post) = List.count b post := by
      simp [List.count_cons, hne]
    have h2 : List.count b post ≤
        List.count b ({ b0 with birthTime := τ, x := 150, y := 300 } :: post) := by
      rw [List.count_cons]
      exact Nat.le_add_right _ _
    rw [List.count_append, List.count_append, h1]
    exact Nat.add_le_add_left h2 _

/-- Every bubble after a recycle-or-create step is an input bubble or a
recycled/created one whose birth time is the processed window time. -/
theorem processMissing_mem {k : Kind} {t τ : ℚ} {st : SimState}
    (hτ1 : τ ≤ t) (hτ2 : t - τ ≤ LIFE_SPAN_YEARS) {c : Bubble}
    (hc : c ∈ (processMissing k t st τ).bubbles) :
    c ∈ st.bubbles ∨ RecycledOrCreated t st.bubbles c := by
  unfold processMissing at hc
  rcases hsome : recycleFuture k t τ st.bubbles with _ | bs2
  · rw [hsome] at hc
    rcases List.mem_append.mp hc with hin | hnew
    · exact Or.inl hin
    · right
      rcases List.mem_cons.mp hnew with rfl | hfalse
      · exact ⟨⟨hτ1, hτ2⟩, Or.inr ⟨rfl, rfl⟩⟩
      · cases hfalse
  · rw [hsome] at hc
    obtain ⟨pre, b0, post, hbs, hbk, hbf, hbs2⟩ := recycleFuture_some_spec hsome
    rw [hbs2] at hc
    rcases List.mem_append.mp hc with hpre | hmid
    · exact Or.inl (hbs ▸ List.mem_append_left _ hpre)
    · rcases List.mem_cons.mp hmid with rfl | hpost
      · right
        refine ⟨⟨hτ1, hτ2⟩, Or.inl ⟨b0, hbs ▸ List.mem_append_right _ (List.mem_cons_self _ _), hbf, rfl⟩⟩
      · exact Or.inl (hbs ▸ List.mem_append_right _ (List.mem_cons_of_mem _ hpost))

/-- A recycle-or-create step leaves a bubble of the kind carrying the
processed birth time. -/
theorem processMissing_witness (k : Kind) (t τ : ℚ) (st : SimState) :
    ∃ c ∈ (processMissing k t st τ).bubbles, c.type = k ∧ c.birthTime = τ := by
  unfold processMissing
  rcases hsome : recycleFuture k t τ st.bubbles with _ | bs2
  · exact ⟨createBubble st.nextId k τ, List.mem_append_right _ (List.mem_cons_self _ _), rfl, rfl⟩
  · obtain ⟨pre, b0, post, hbs, hbk, hbf, hbs2⟩ := recycleFuture_some_spec hsome
    refine ⟨{ b0 with birthTime := τ, x := 150, y := 300 }, ?_, hbk, rfl⟩
    rw [hbs2]
    exact List.mem_append_right _ (List.mem_cons_self _ _)

/-- A recycled-or-created bubble over an intermediate bubble list is
recycled-or-created over the original list, provided every intermediate bubble
is original or itself recycled/created. -/
theorem RecycledOrCreated_source {t : ℚ} {src mid : List Bubble}
    (hmid : ∀ b ∈ mid, b ∈ src ∨ RecycledOrCreated t src b) {c : Bubble}
    (hc : RecycledOrCreated t mid c) : RecycledOrCreated t src c := by
  obtain ⟨hbounds, hcase⟩ := hc
  refine ⟨hbounds, ?_⟩
  rcases hcase with ⟨b0, hb0, hfut, hceq⟩ | hpos
  · rcases hmid b0 hb0 with h | ⟨⟨hle, _⟩, _⟩
    · exact Or.inl ⟨b0, h, hfut, hceq⟩
    · exact absurd hfut (not_lt.mpr hle)
  · exact Or.inr hpos

/-- Fold version of `processMissing_preserve`. -/
theorem foldl_processMissing_preserve {k : Kind} {t : ℚ} {M : List ℚ}
    {st : SimState} {c : Bubble} (hc : c ∈ st.bubbles) (hpast : c.birthTime ≤ t) :
    c ∈ (M.foldl (processMissing k t) st).bubbles := by
  induction M generalizing st with
  | nil => exact hc
  | cons τ M ih => exact ih (processMissing_preserve hc hpast)

/-- Fold version of `processMissing_count`. -/
theorem foldl_processMissing_count {k : Kind} {t : ℚ} (M : List ℚ)
    (st : SimState) (b : Bubble) (hpast : b.birthTime ≤ t) :
    st.bubbles.count b ≤ ((M.foldl (processMissing k t) st).bubbles.count b) := by
  induction M generalizing st with
  | nil => exact le_refl _
  | cons τ M ih => exact (processMissing_count st b hpast).trans (ih _)

/-- Fold version of `processMissing_nextId_le`. -/
theorem foldl_processMissing_nextId_le (k : Kind) (t : ℚ) (M : List ℚ)
    (st : SimState) : st.nextId ≤ (M.foldl (processMissing k t) st).nextId := by
  induction M generalizing st with
  | nil => exact le_refl _
  | cons τ M ih => exact (processMissing_nextId_le k t τ st).trans (ih _)

/-- Fold version of `processMissing_mem`. -/
theorem foldl_processMissing_mem {k : Kind} {t : ℚ} {M : List ℚ} {st : SimState}
    (hM : ∀ τ ∈ M, τ ≤ t ∧ t - τ ≤ LIFE_SPAN_YEARS) {c : Bubble}
    (hc : c ∈ (M.foldl (processMissing k t) st).bubbles) :
    c ∈ st.bubbles ∨ RecycledOrCreated t st.bubbles c := by
  induction M generalizing st with
  | nil => exact Or.inl hc
  | cons τ M ih =>
    have hτ := hM τ (List.mem_cons_self τ M)
    have hmid : ∀ b ∈ (processMissing k t st τ).bubbles,
        b ∈ st.bubbles ∨ RecycledOrCreated t st.bubbles b :=
      fun b hb => processMissing_mem hτ.1 hτ.2 hb
    rcases ih (fun τ2 h2 => hM τ2 (List.mem_cons_of_mem τ h2)) hc with h | h
    · exact hmid c h
    · exact Or.inr (RecycledOrCreated_source hmid h)

/-- Fold version of `processMissing_witness`: each processed time ends with a
bubble of the kind carrying it. -/
theorem foldl_processMissing_witness {k : Kind} {t : ℚ} {M : List ℚ}
    (hM : ∀ τ ∈ M, τ ≤ t ∧ t - τ ≤ LIFE_SPAN_YEARS) (st : SimState) :
    ∀ τ ∈ M, ∃ c ∈ (M.foldl (processMissing k t) st).bubbles,
      c.type = k ∧ c.birthTime = τ := by
  induction M generalizing st with
  | nil => intro τ h; cases h
  | cons τ1 M ih =>
    intro τ hτ
    simp only [List.foldl_cons]
    rcases List.mem_cons.mp hτ with heq | hmem
    · obtain ⟨c, hc, hck, hcτ⟩ := processMissing_witness k t τ1 st
      refine ⟨c, foldl_processMissing_preserve hc ?_, hck, ?_⟩
      · rw [hcτ]
        exact (hM τ1 (List.mem_cons_self τ1 M)).1
      · rw [hcτ, heq]
    · exact ih (fun τ2 h2 => hM τ2 (List.mem_cons_of_mem τ1 h2)) _ τ hmem

/-- The missing-time list processed by `processType` stays inside the alive
window. -/
theorem processType_missing_window (sched : Schedule) (t : ℚ) (k : Kind)
    (st : SimState) :
    ∀ τ ∈ (shouldExistTimes (schedOf sched k) t).filter
        (fun time => ! (((st.bubbles.filter fun b => decide (b.type = k)).filter
          fun b => decide (b.birthTime ≤ t)).map (·.birthTime)).contains time),
      τ ≤ t ∧ t - τ ≤ LIFE_SPAN_YEARS :=
  fun τ hτ => shouldExistTimes_mem (List.mem_of_mem_filter hτ)

/-- Every bubble after a per-kind reconcile pass is an input bubble or a
recycled/created one. -/
theorem processType_mem {sched : Schedule} {t : ℚ} {k : Kind} {st : SimState}
    {c : Bubble} (hc : c ∈ (processType sched t k st).bubbles) :
    c ∈ st.bubbles ∨ RecycledOrCreated t st.bubbles c :=
  foldl_processMissing_mem (processType_missing_window sched t k st) hc

/-- Born bubbles survive a per-kind reconcile pass. -/
theorem processType_preserve {sched : Schedule} {t : ℚ} {k : Kind} {st : SimState}
    {c : Bubble} (hc : c ∈ st.bubbles) (hpast : c.birthTime ≤ t) :
    c ∈ (processType sched t k st).bubbles :=
  foldl_processMissing_preserve hc hpast

/-- Born bubble multiplicities never decrease across a per-kind pass. -/
theorem processType_count (sched : Schedule) (t : ℚ) (k : Kind) (st : SimState)
    (b : Bubble) (hpast : b.birthTime ≤ t) :
    st.bubbles.count b ≤ (processType sched t k st).bubbles.count b :=
  foldl_processMissing_count _ _ _ hpast

/-- Every bubble present after reconcile is an input bubble passed through
unchanged, or a recycled/created bubble. -/
theorem reconcile_mem {csvData : List CsvRecord} {sched : Schedule} {t : ℚ}
    {st : SimState} {c : Bubble} (hc : c ∈ (reconcile csvData sched t st).bubbles) :
    c ∈ st.bubbles ∨ RecycledOrCreated t st.bubbles c := by
  unfold reconcile at hc
  split at hc
  · exact Or.inl hc
  · have hmid1 : ∀ b2 ∈ (st.bubbles.filter (keepBubble t)),
        b2 ∈ st.bubbles ∨ RecycledOrCreated t st.bubbles b2 :=
      fun b2 hb2 => Or.inl (List.mem_of_mem_filter hb2)
    have hmid2 : ∀ b2 ∈ (processType sched t Kind.investor
        { st with bubbles := st.bubbles.filter (keepBubble t) }).bubbles,
        b2 ∈ st.bubbles ∨ RecycledOrCreated t st.bubbles b2 := by
      intro b2 hb2
      rcases processType_mem hb2 with h | h
      · exact hmid1 b2 h
      · exact Or.inr (RecycledOrCreated_source hmid1 h)
    rcases processType_mem hc with h | h
    · exact hmid2 c h
    · exact Or.inr (RecycledOrCreated_source hmid2 h)

/-- C10: reconcile never disturbs a bubble that is alive at the current time:
every alive bubble of the input persists in the output with identical fields
(its multiplicity never drops), and every output bubble either is an input
bubble passed through unchanged or is recycled/created — where recycling
overwrites only bubbles whose `birthTime` exceeded the current time. -/
theorem reconcile_alive_frame (csvData : List CsvRecord) (sched : Schedule)
    (t : ℚ) (st : SimState) (b : Bubble) (hb : b ∈ st.bubbles)
    (h0 : 0 ≤ t - b.birthTime) (h1 : t - b.birthTime ≤ LIFE_SPAN_YEARS) :
    st.bubbles.count b ≤ (reconcile csvData sched t st).bubbles.count b ∧
    ∀ c ∈ (reconcile csvData sched t st).bubbles,
      c ∈ st.bubbles ∨ RecycledOrCreated t st.bubbles c := by
  have hpast : b.birthTime ≤ t := by linarith
  refine ⟨?_, fun c hc => reconcile_mem hc⟩
  unfold reconcile
  split
  · exact le_refl _
  · show st.bubbles.count b ≤ (processType sched t Kind.noninvestor
      (processType sched t Kind.investor
        { st with bubbles := st.bubbles.filter (keepBubble t) })).bubbles.count b
    have hkeep : keepBubble t b = true := by
      unfold keepBubble
      simp only [Bool.or_eq_true, Bool.and_eq_true, decide_eq_true_eq]
      exact Or.inr ⟨h0, h1⟩
    have hfil : st.bubbles.count b ≤
        ({ st with bubbles := st.bubbles.filter (keepBubble t) } : SimState).bubbles.count b := by
      rw [List.count_filter hkeep]
    exact hfil.trans ((processType_count sched t Kind.investor _ b hpast).trans
      (processType_count sched t Kind.noninvestor _ b hpast))

section

attribute [local semireducible] Rat.add Rat.sub Rat.mul Rat.inv

/-- Witness for C10 at a concrete alive bubble: its multiplicity is preserved
by a reconcile run. -/
theorem reconcile_alive_frame_witness :
    ([⟨0, Kind.investor, 0, 1, 2⟩] : List Bubble).count ⟨0, Kind.investor, 0, 1, 2⟩ ≤
      (reconcile scenRecords ⟨[5], []⟩ (1 / 2)
        ⟨[⟨0, Kind.investor, 0, 1, 2⟩], 1⟩).bubbles.count ⟨0, Kind.investor, 0, 1, 2⟩ :=
  (reconcile_alive_frame scenRecords ⟨[5], []⟩ (1 / 2) ⟨[⟨0, Kind.investor, 0, 1, 2⟩], 1⟩
    ⟨0, Kind.investor, 0, 1, 2⟩ (by decide) (by decide) (by decide)).1

end

/-- C7 (amended): every bubble present after reconcile either passed through
unchanged or sits at one of the two fixed admission coordinates: the recycle
reset point `(150, 300)` or the spawn point `(SPAWN_X, SPAWN_Y) = (180, 350)`.
Both are deterministic and finite, but they are distinct points. -/
theorem reconcile_positions_deterministic (csvData : List CsvRecord)
    (sched : Schedule) (t : ℚ) (st : SimState) :
    ∀ c ∈ (reconcile csvData sched t st).bubbles,
      c ∈ st.bubbles ∨ (c.x = 150 ∧ c.y = 300) ∨ (c.x = SPAWN_X ∧ c.y = SPAWN_Y) := by
  intro c hc
  rcases reconcile_mem hc with h | ⟨_, ⟨b0, _, _, hceq⟩ | hpos⟩
  · exact Or.inl h
  · refine Or.inr (Or.inl ?_)
    rw [hceq]
    exact ⟨rfl, rfl⟩
  · exact Or.inr (Or.inr hpos)

section

attribute [local semireducible] Rat.add Rat.sub Rat.mul Rat.inv

/-- Witness for C7 (amended) at a bubble created by a concrete reconcile run:
it sits at the spawn point. -/
theorem reconcile_positions_deterministic_witness :
    (⟨0, Kind.investor, 10002 / 5, 180, 350⟩ : Bubble) ∈ (⟨[], 0⟩ : SimState).bubbles ∨
    ((⟨0, Kind.investor, 10002 / 5, 180, 350⟩ : Bubble).x = 150 ∧
     (⟨0, Kind.investor, 10002 / 5, 180, 350⟩ : Bubble).y = 300) ∨
    ((⟨0, Kind.investor, 10002 / 5, 180, 350⟩ : Bubble).x = SPAWN_X ∧
     (⟨0, Kind.investor, 10002 / 5, 180, 350⟩ : Bubble).y = SPAWN_Y) :=
  reconcile_positions_deterministic scenRecords scenSched (20013 / 10) ⟨[], 0⟩
    ⟨0, Kind.investor, 10002 / 5, 180, 350⟩ (by decide)

end

/-- Appending one bubble changes an alive count by its own alive test. -/
theorem aliveCount_append (k2 : Kind) (t : ℚ) (bs : List Bubble) (c : Bubble) :
    aliveCount k2 t (bs ++ [c]) = aliveCount k2 t bs +
      (if (decide (c.type = k2) && isAlive t c) = true then 1 else 0) := by
  unfold aliveCount
  rw [List.filter_append, List.length_append]
  congr 1
  rcases h : (decide (c.type = k2) && isAlive t c) with _ | _
  · simp [List.filter_cons, h]
  · simp [List.filter_cons, h]

/-- Folding window times over a state whose bubbles are all born creates one
alive bubble of the processed kind per time: alive counts of other kinds are
unchanged, all bubbles stay born, and every bubble is original or of the
processed kind. -/
theorem foldl_processMissing_from_past (k : Kind) (t : ℚ) (M : List ℚ)
    (hM : ∀ τ ∈ M, τ ≤ t ∧ t - τ ≤ LIFE_SPAN_YEARS) (st : SimState)
    (hpast : ∀ b ∈ st.bubbles, b.birthTime ≤ t) :
    (∀ k2 : Kind, aliveCount k2 t (M.foldl (processMissing k t) st).bubbles =
        aliveCount k2 t st.bubbles + (if k2 = k then M.length else 0)) ∧
    (∀ b ∈ (M.foldl (processMissing k t) st).bubbles, b.birthTime ≤ t) ∧
    (∀ b ∈ (M.foldl (processMissing k t) st).bubbles, b ∈ st.bubbles ∨ b.type = k) := by
  induction M generalizing st with
  | nil =>
    exact ⟨fun k2 => by simp, hpast, fun b hb => Or.inl hb⟩
  | cons τ M ih =>
    have hτ := hM τ (List.mem_cons_self τ M)
    have hnone : recycleFuture k t τ st.bubbles = none :=
      recycleFuture_eq_none fun b hb hcon => absurd (hpast b hb) (not_le.mpr hcon.2)
    have hstep : processMissing k t st τ =
        ⟨st.bubbles ++ [createBubble st.nextId k τ], st.nextId + 1⟩ := by
      unfold processMissing
      rw [hnone]
    have hcpast : (createBubble st.nextId k τ).birthTime ≤ t := hτ.1
    have hpast2 : ∀ b ∈ (processMissing k t st τ).bubbles, b.birthTime ≤ t := by
      rw [hstep]
      intro b hb
      rcases List.mem_append.mp hb with h | h
      · exact hpast b h
      · rcases List.mem_cons.mp h with rfl | hfalse
        · exact hcpast
        · cases hfalse
    simp only [List.foldl_cons]
    obtain ⟨ihcount, ihpast, ihorig⟩ :=
      ih (fun τ2 h2 => hM τ2 (List.mem_cons_of_mem τ h2)) (processMissing k t st τ) hpast2
    refine ⟨?_, ihpast, ?_⟩
    · intro k2
      rw [ihcount k2, hstep]
      have halive : isAlive t (createBubble st.nextId k τ) = true := by
        unfold isAlive createBubble
        simp only [Bool.and_eq_true, decide_eq_true_eq]
        constructor
        · linarith [hτ.1]
        · exact hτ.2
      show aliveCount k2 t (st.bubbles ++ [createBubble st.nextId k τ]) +
          (if k2 = k then M.length else 0) =
        aliveCount k2 t st.bubbles + (if k2 = k then (τ :: M).length else 0)
      rw [aliveCount_append, halive, List.length_cons]
      by_cases hk : k2 = k
      · subst hk
        have hcond : (decide ((createBubble st.nextId k2 τ).type = k2) && true) = true := by
          simp [createBubble]
        rw [hcond, if_pos rfl, if_pos rfl, if_pos rfl]
        omega
      · have hne : ¬ ((createBubble st.nextId k τ).type = k2) := fun he => hk he.symm
        have hcond : (decide ((createBubble st.nextId k τ).type = k2) && true) = false := by
          simp [hne]
        rw [hcond, if_neg hk, if_neg hk]
        simp
    · intro b hb
      rcases ihorig b hb with h | h
      · rw [hstep] at h
        rcases List.mem_append.mp h with h2 | h2
        · exact Or.inl h2
        · rcases List.mem_cons.mp h2 with rfl | hfalse
          · exact Or.inr rfl
          · cases hfalse
      · exact Or.inr h

/-- Unfolds the per-kind pass to its missing-times fold. -/
theorem processType_def (sched : Schedule) (t : ℚ) (k : Kind) (st : SimState) :
    processType sched t k st =
      ((shouldExistTimes (schedOf sched k) t).filter fun time =>
        ! (((st.bubbles.filter fun b => decide (b.type = k)).filter
            fun b => decide (b.birthTime ≤ t)).map (·.birthTime)).contains time).foldl
        (processMissing k t) st := rfl

/-- A per-kind pass over a state holding no bubble of that kind (and only born
bubbles) creates exactly one alive bubble per `shouldExist` entry. -/
theorem processType_from_empty_kind (sched : Schedule) (t : ℚ) (k : Kind)
    (st : SimState) (hpast : ∀ b ∈ st.bubbles, b.birthTime ≤ t)
    (hnone : ∀ b ∈ st.bubbles, ¬ b.type = k) :
    (∀ k2 : Kind, aliveCount k2 t (processType sched t k st).bubbles =
        aliveCount k2 t st.bubbles +
          (if k2 = k then (shouldExistTimes (schedOf sched k) t).length else 0)) ∧
    (∀ b ∈ (processType sched t k st).bubbles, b.birthTime ≤ t) ∧
    (∀ b ∈ (processType sched t k st).bubbles, b ∈ st.bubbles ∨ b.type = k) := by
  have hfil : st.bubbles.filter (fun b => decide (b.type = k)) = [] :=
    List.filter_eq_nil.mpr fun b hb => by simpa using hnone b hb
  have hmiss : ((shouldExistTimes (schedOf sched k) t).filter fun time =>
      ! (((st.bubbles.filter fun b => decide (b.type = k)).filter
          fun b => decide (b.birthTime ≤ t)).map (·.birthTime)).contains time) =
      shouldExistTimes (schedOf sched k) t := by
    rw [hfil]
    exact List.filter_eq_self.mpr fun a ha => rfl
  have := foldl_processMissing_from_past k t (shouldExistTimes (schedOf sched k) t)
    (fun τ hτ => shouldExistTimes_mem hτ) st hpast
  rw [processType_def, hmiss]
  exact this

/-- C1 (amended): reconciling at `t` from the empty bubble set (the component's
initial state), with the guard satisfied, leaves an alive count of each kind
equal to the number of scheduled birth times of that kind inside the window
`[t - LIFE_SPAN_YEARS, t]`.  (By `reconcile_tracking_counterexample` this can
differ from `max 0 (round(profit(t)/BUBBLE_VALUE))` by more than one.) -/
theorem reconcile_from_empty_counts (csvData : List CsvRecord) (sched : Schedule)
    (t : ℚ) (hcsv : csvData.length ≠ 0) (hinv : sched.investor.length ≠ 0)
    (k : Kind) :
    aliveCount k t (reconcile csvData sched t ⟨[], 0⟩).bubbles =
      (shouldExistTimes (schedOf sched k) t).length := by
  unfold reconcile
  rw [if_neg (by push_neg; exact ⟨hcsv, hinv⟩)]
  show aliveCount k t (processType sched t Kind.noninvestor
    (processType sched t Kind.investor ⟨[], 0⟩)).bubbles = _
  obtain ⟨hcount1, hpast1, horig1⟩ :=
    processType_from_empty_kind sched t Kind.investor ⟨[], 0⟩
      (fun b hb => by cases hb) (fun b hb => by cases hb)
  have hnone2 : ∀ b ∈ (processType sched t Kind.investor ⟨[], 0⟩).bubbles,
      ¬ b.type = Kind.noninvestor := by
    intro b hb he
    rcases horig1 b hb with h | h
    · cases h
    · rw [he] at h
      cases h
  obtain ⟨hcount2, _, _⟩ :=
    processType_from_empty_kind sched t Kind.noninvestor
      (processType sched t Kind.investor ⟨[], 0⟩) hpast1 hnone2
  rw [hcount2 k, hcount1 k]
  cases k
  · simp [aliveCount]
  · simp [aliveCount]

section

attribute [local semireducible] Rat.add Rat.sub Rat.mul Rat.inv

/-- Witness for C1 (amended) on the scenario data at `t = 2000.5`. -/
theorem reconcile_from_empty_counts_witness :
    aliveCount Kind.investor (4001 / 2)
        (reconcile scenRecords scenSched (4001 / 2) ⟨[], 0⟩).bubbles =
      (shouldExistTimes (schedOf scenSched Kind.investor) (4001 / 2)).length :=
  reconcile_from_empty_counts scenRecords scenSched (4001 / 2) (by decide) (by decide)
    Kind.investor

end

/-- A recycled or created bubble passes the keep filter (it is alive). -/
theorem keep_of_RecycledOrCreated {t : ℚ} {src : List Bubble} {c : Bubble}
    (h : RecycledOrCreated t src c) : keepBubble t c = true := by
  obtain ⟨⟨h1, h2⟩, _⟩ := h
  unfold keepBubble
  simp only [Bool.or_eq_true, Bool.and_eq_true, decide_eq_true_eq]
  exact Or.inr ⟨by linarith, h2⟩

/-- A per-kind pass keeps every bubble passing the keep filter. -/
theorem processType_keep {sched : Schedule} {t : ℚ} {k : Kind} {st : SimState}
    (h : ∀ b ∈ st.bubbles, keepBubble t b = true) :
    ∀ b ∈ (processType sched t k st).bubbles, keepBubble t b = true := by
  intro b hb
  rcases processType_mem hb with h2 | h2
  · exact h b h2
  · exact keep_of_RecycledOrCreated h2

/-- After a guarded reconcile run, every bubble is future or alive. -/
theorem reconcile_keep {csvData : List CsvRecord} {sched : Schedule} {t : ℚ}
    {st : SimState} (hg : ¬ (csvData.length = 0 ∨ sched.investor.length = 0)) :
    ∀ c ∈ (reconcile csvData sched t st).bubbles, keepBubble t c = true := by
  unfold reconcile
  rw [if_neg hg]
  show ∀ c ∈ (processType sched t Kind.noninvestor (processType sched t Kind.investor
    { st with bubbles := st.bubbles.filter (keepBubble t) })).bubbles, keepBubble t c = true
  exact processType_keep (processType_keep fun b hb => List.of_mem_filter hb)

/-- A per-kind pass realizes every `shouldExist` time: afterwards some bubble
of the kind carries it. -/
theorem processType_complete (sched : Schedule) (t : ℚ) (k : Kind) (st : SimState) :
    ∀ τ ∈ shouldExistTimes (schedOf sched k) t,
      ∃ c ∈ (processType sched t k st).bubbles, c.type = k ∧ c.birthTime = τ := by
  intro τ hτ
  have hpastτ : τ ≤ t := (shouldExistTimes_mem hτ).1
  rw [processType_def]
  by_cases hmem : τ ∈ (shouldExistTimes (schedOf sched k) t).filter fun time =>
      ! (((st.bubbles.filter fun b => decide (b.type = k)).filter
          fun b => decide (b.birthTime ≤ t)).map (·.birthTime)).contains time
  · exact foldl_processMissing_witness
      (fun τ2 h2 => shouldExistTimes_mem (List.mem_of_mem_filter h2)) st τ hmem
  · have hcont : (((st.bubbles.filter fun b => decide (b.type = k)).filter
        fun b => decide (b.birthTime ≤ t)).map (·.birthTime)).contains τ = true := by
      rcases hcb : (((st.bubbles.filter fun b => decide (b.type = k)).filter
          fun b => decide (b.birthTime ≤ t)).map (·.birthTime)).contains τ with _ | _
      · exact absurd (List.mem_filter.mpr ⟨hτ, by rw [hcb]; rfl⟩) hmem
      · exact hcb
    obtain ⟨b, hb, hbt⟩ := List.mem_map.mp (List.mem_of_elem_eq_true hcont)
    have hb2 := List.mem_of_mem_filter hb
    have hbk : b.type = k := by simpa using (List.of_mem_filter hb2)
    have hbst : b ∈ st.bubbles := List.mem_of_mem_filter hb2
    refine ⟨b, foldl_processMissing_preserve hbst (hbt ▸ hpastτ), hbk, hbt⟩

/-- When every `shouldExist` time is already carried by a born bubble of the
kind, the per-kind pass is the identity. -/
theorem processType_no_missing (sched : Schedule) (t : ℚ) (k : Kind) (st : SimState)
    (hcomp : ∀ τ ∈ shouldExistTimes (schedOf sched k) t,
      ∃ c ∈ st.bubbles, c.type = k ∧ c.birthTime = τ) :
    processType sched t k st = st := by
  rw [processType_def]
  have hnil : ((shouldExistTimes (schedOf sched k) t).filter fun time =>
      ! (((st.bubbles.filter fun b => decide (b.type = k)).filter
          fun b => decide (b.birthTime ≤ t)).map (·.birthTime)).contains time) = [] := by
    apply List.filter_eq_nil.mpr
    intro τ hτ
    obtain ⟨c, hc, hck, hcτ⟩ := hcomp τ hτ
    have hcpast : c.birthTime ≤ t := hcτ ▸ (shouldExistTimes_mem hτ).1
    have hcmem : c ∈ (st.bubbles.filter fun b => decide (b.type = k)).filter
        fun b => decide (b.birthTime ≤ t) :=
      List.mem_filter.mpr ⟨List.mem_filter.mpr ⟨hc, by simpa using hck⟩, by simpa using hcpast⟩
    have hmapmem : τ ∈ ((st.bubbles.filter fun b => decide (b.type = k)).filter
        fun b => decide (b.birthTime ≤ t)).map (·.birthTime) :=
      List.mem_map.mpr ⟨c, hcmem, hcτ⟩
    intro hcontra
    simp only [List.contains, List.elem_eq_true_of_mem hmapmem] at hcontra
    simp at hcontra
  rw [hnil]
  rfl

/-- After a guarded reconcile run, every `shouldExist` time of each kind is
carried by some bubble of that kind. -/
theorem reconcile_complete {csvData : List CsvRecord} {sched : Schedule} {t : ℚ}
    {st : SimState} (hg : ¬ (csvData.length = 0 ∨ sched.investor.length = 0))
    (k : Kind) :
    ∀ τ ∈ shouldExistTimes (schedOf sched k) t,
      ∃ c ∈ (reconcile csvData sched t st).bubbles, c.type = k ∧ c.birthTime = τ := by
  intro τ hτ
  unfold reconcile
  rw [if_neg hg]
  show ∃ c ∈ (processType sched t Kind.noninvestor (processType sched t Kind.investor
    { st with bubbles := st.bubbles.filter (keepBubble t) })).bubbles,
    c.type = k ∧ c.birthTime = τ
  cases k with
  | investor =>
    obtain ⟨c, hc, hck, hcτ⟩ := processType_complete sched t Kind.investor
      { st with bubbles := st.bubbles.filter (keepBubble t) } τ hτ
    have hcpast : c.birthTime ≤ t := hcτ ▸ (shouldExistTimes_mem hτ).1
    exact ⟨c, processType_preserve hc hcpast, hck, hcτ⟩
  | noninvestor =>
    exact processType_complete sched t Kind.noninvestor _ τ hτ

/-- C5: scheduler reconciliation is idempotent.  Running `reconcile` a second
time at the same clock value returns the state of the first run unchanged: in
particular the second run creates no new bubble (the id counter is untouched)
and the alive count of each kind is unchanged. -/
theorem reconcile_idempotent (csvData : List CsvRecord) (sched : Schedule)
    (t : ℚ) (st : SimState) :
    reconcile csvData sched t (reconcile csvData sched t st) =
      reconcile csvData sched t st ∧
    (reconcile csvData sched t (reconcile csvData sched t st)).nextId =
      (reconcile csvData sched t st).nextId ∧
    ∀ k : Kind,
      aliveCount k t (reconcile csvData sched t (reconcile csvData sched t st)).bubbles =
        aliveCount k t (reconcile csvData sched t st).bubbles := by
  have main : reconcile csvData sched t (reconcile csvData sched t st) =
      reconcile csvData sched t st := by
    by_cases hg : csvData.length = 0 ∨ sched.investor.length = 0
    · unfold reconcile
      simp only [if_pos hg]
    · have hkeep := @reconcile_keep csvData sched t st hg
      have hcomp := @reconcile_complete csvData sched t st hg
      set s1 := reconcile csvData sched t st with hs1
      unfold reconcile
      rw [if_neg hg]
      have hfil : s1.bubbles.filter (keepBubble t) = s1.bubbles :=
        List.filter_eq_self.mpr hkeep
      show processType sched t Kind.noninvestor (processType sched t Kind.investor
        { s1 with bubbles := s1.bubbles.filter (keepBubble t) }) = s1
      rw [hfil]
      have heta : ({ s1 with bubbles := s1.bubbles } : SimState) = s1 := rfl
      rw [heta, processType_no_missing sched t Kind.investor s1 (hcomp Kind.investor),
        processType_no_missing sched t Kind.noninvestor s1 (hcomp Kind.noninvestor)]
  exact ⟨main, by rw [main], fun k => by rw [main]⟩

/-- In a strictly year-sorted record list, years are monotone in the index. -/
theorem sorted_get_year_le {l : List CsvRecord}
    (hs : l.Pairwise fun a b => a.year < b.year) {i j : ℕ} (hij : i ≤ j)
    (hj : j < l.length) :
    (l.get ⟨i, Nat.lt_of_le_of_lt hij hj⟩).year ≤ (l.get ⟨j, hj⟩).year := by
  rcases Nat.eq_or_lt_of_le hij with heq | hlt
  · subst heq
    exact le_refl _
  · exact le_of_lt (List.pairwise_iff_get.mp hs ⟨i, Nat.lt_of_le_of_lt hij hj⟩ ⟨j, hj⟩ hlt)

/-- The interval search returns the unique bracketing index in a strictly
sorted record list. -/
theorem findIntervalIdx_eq : ∀ (csvData : List CsvRecord) (t : ℚ),
    csvData.Pairwise (fun a b => a.year < b.year) →
    ∀ (i : ℕ) (hi : i + 1 < csvData.length),
      (csvData.get ⟨i, Nat.lt_of_succ_lt hi⟩).year ≤ t →
      t < (csvData.get ⟨i + 1, hi⟩).year →
      findIntervalIdx csvData t = some i
  | [], _, _, i, hi, _, _ => absurd hi (by simp)
  | [d0], _, _, i, hi, _, _ => absurd hi (by simp)
  | d0 :: d1 :: rest, t, hs, 0, hi, h1, h2 => by
    unfold findIntervalIdx
    rw [if_pos ⟨h1, h2⟩]
  | d0 :: d1 :: rest, t, hs, j + 1, hi, h1, h2 => by
    unfold findIntervalIdx
    have hd1 : d1.year ≤ t := by
      have hle := sorted_get_year_le hs (show 1 ≤ j + 1 by omega) (Nat.lt_of_succ_lt hi)
      exact le_trans hle h1
    rw [if_neg fun hcon => absurd hcon.2 (not_lt.mpr hd1)]
    rw [findIntervalIdx_eq (d1 :: rest) t hs.of_cons j (by simpa using hi)
      (by simpa using h1) (by simpa using h2)]
    rfl

/-- Evaluation of `getLastD` at a nonempty list. -/
theorem getLastD_cons_eq_getLast (first : CsvRecord) (rest : List CsvRecord) :
    (first :: rest).getLastD first =
      (first :: rest).getLast (List.cons_ne_nil first rest) := by
  rw [List.getLastD_eq_getLast?,
    List.getLast?_eq_getLast (first :: rest) (List.cons_ne_nil first rest)]
  rfl

/-- C2: the interpolator clamps to the first record at or below the first
year, clamps to the last record at or above the last year, and applies linear
interpolation of both profit fields on the bracketing interval for times
strictly between two adjacent record years. -/
theorem getInterpolatedProfits_spec (csvData : List CsvRecord) (t : ℚ)
    (hne : csvData ≠ [])
    (hsorted : csvData.Pairwise fun a b => a.year < b.year) :
    (t ≤ (csvData.head hne).year →
      getInterpolatedProfits csvData t =
        ((csvData.head hne).investor, (csvData.head hne).noninvestor)) ∧
    ((csvData.getLast hne).year ≤ t →
      getInterpolatedProfits csvData t =
        ((csvData.getLast hne).investor, (csvData.getLast hne).noninvestor)) ∧
    (∀ (i : ℕ) (hi : i + 1 < csvData.length),
      (csvData.get ⟨i, Nat.lt_of_succ_lt hi⟩).year < t →
      t < (csvData.get ⟨i + 1, hi⟩).year →
      getInterpolatedProfits csvData t =
        (lerp (csvData.get ⟨i, Nat.lt_of_succ_lt hi⟩).year
            (csvData.get ⟨i, Nat.lt_of_succ_lt hi⟩).investor
            (csvData.get ⟨i + 1, hi⟩).year (csvData.get ⟨i + 1, hi⟩).investor t,
         lerp (csvData.get ⟨i, Nat.lt_of_succ_lt hi⟩).year
            (csvData.get ⟨i, Nat.lt_of_succ_lt hi⟩).noninvestor
            (csvData.get ⟨i + 1, hi⟩).year (csvData.get ⟨i + 1, hi⟩).noninvestor t)) := by
  obtain ⟨first, rest, rfl⟩ := List.exists_cons_of_ne_nil hne
  refine ⟨?_, ?_, ?_⟩
  · intro h
    rw [List.head_cons] at h
    simp only [getInterpolatedProfits, List.head_cons]
    rw [if_pos h]
  · intro h
    by_cases hle : t ≤ first.year
    · have hfl : first.year ≤ ((first :: rest).getLast (List.cons_ne_nil first rest)).year := by
        have hget := List.getLast_eq_get (first :: rest) (List.cons_ne_nil first rest)
        rw [hget]
        exact sorted_get_year_le hsorted (Nat.zero_le _) (by simp)
      have hrest : rest = [] := by
        cases rest with
        | nil => rfl
        | cons d1 rest2 =>
          exfalso
          have hlt : first.year < ((first :: d1 :: rest2).getLast
              (List.cons_ne_nil first (d1 :: rest2))).year := by
            rw [List.getLast_eq_get]
            have := List.pairwise_iff_get.mp hsorted ⟨0, by simp⟩
              ⟨(first :: d1 :: rest2).length - 1, by simp⟩ (by exact Nat.succ_pos _)
            exact this
          have hlast := h
          linarith
      subst hrest
      simp only [getInterpolatedProfits, List.getLast_singleton]
      rw [if_pos hle]
    · simp only [getInterpolatedProfits]
      rw [if_neg hle, getLastD_cons_eq_getLast, if_pos h]
  · intro i hi h1 h2
    have hfirstlt : first.year < t := by
      have := sorted_get_year_le hsorted (Nat.zero_le i) (Nat.lt_of_succ_lt hi)
      calc first.year ≤ ((first :: rest).get ⟨i, Nat.lt_of_succ_lt hi⟩).year := this
        _ < t := h1
    have hlastgt : t < ((first :: rest).getLast (List.cons_ne_nil first rest)).year := by
      rw [List.getLast_eq_get]
      calc t < ((first :: rest).get ⟨i + 1, hi⟩).year := h2
        _ ≤ _ := sorted_get_year_le hsorted (by omega) (by simp)
    simp only [getInterpolatedProfits]
    rw [if_neg (not_le.mpr hfirstlt), getLastD_cons_eq_getLast,
      if_neg (not_le.mpr hlastgt),
      findIntervalIdx_eq (first :: rest) t hsorted i hi (le_of_lt h1) h2]
    simp only [Option.getD_some]
    rw [List.getD_eq_get _ _ (Nat.lt_of_succ_lt hi), List.getD_eq_get _ _ hi]

/-- Witness for C2 on two concrete records at the midpoint year. -/
theorem getInterpolatedProfits_spec_witness :
    getInterpolatedProfits [⟨2000, 10, 20⟩, ⟨2001, 30, 40⟩] (4001 / 2) =
      (lerp 2000 10 2001 30 (4001 / 2), lerp 2000 20 2001 40 (4001 / 2)) := by
  have h := (getInterpolatedProfits_spec [⟨2000, 10, 20⟩, ⟨2001, 30, 40⟩] (4001 / 2)
    (by simp) (by simp [List.pairwise_cons]; norm_num)).2.2 0 (by simp)
    (by norm_num) (by norm_num)
  simpa using h

/-- Outside `[0, lifespan]` the opacity is 0. -/
theorem getOpacity_zero {age lifespan fadePortion : ℚ}
    (h : age < 0 ∨ age > lifespan) : getOpacity age lifespan fadePortion = 0 := by
  unfold getOpacity
  rw [if_pos h]

/-- On the fade-in window the opacity is the linear ramp. -/
theorem getOpacity_rampin {age lifespan fadePortion : ℚ} (hl : 0 < lifespan)
    (hf0 : 0 < fadePortion) (hf : fadePortion ≤ 1 / 2)
    (h0 : 0 ≤ age) (h1 : age < lifespan * fadePortion) :
    getOpacity age lifespan fadePortion = age / (lifespan * fadePortion) := by
  unfold getOpacity
  have hnot : ¬ (age < 0 ∨ age > lifespan) := by
    push_neg
    exact ⟨h0, by nlinarith⟩
  rw [if_neg hnot, if_pos h1]

/-- On the fade-out window the opacity is the linear ramp-down. -/
theorem getOpacity_rampdown {age lifespan fadePortion : ℚ} (hl : 0 < lifespan)
    (hf0 : 0 < fadePortion) (hf : fadePortion ≤ 1 / 2)
    (h2 : lifespan * (1 - fadePortion) < age) (hle : age ≤ lifespan) :
    getOpacity age lifespan fadePortion =
      1 - (age - lifespan * (1 - fadePortion)) / (lifespan * fadePortion) := by
  unfold getOpacity
  have hb2pos : (0 : ℚ) < lifespan * (1 - fadePortion) := by nlinarith
  have hnot : ¬ (age < 0 ∨ age > lifespan) := by
    push_neg
    exact ⟨by linarith, hle⟩
  have hnot2 : ¬ age < lifespan * fadePortion := by
    push_neg
    nlinarith
  rw [if_neg hnot, if_neg hnot2, if_pos h2]
  have hrem : lifespan - lifespan * (1 - fadePortion) = lifespan * fadePortion := by ring
  rw [hrem]

/-- On the steady-state window the opacity is 1. -/
theorem getOpacity_one (lifespan fadePortion : ℚ) (hl : 0 < lifespan)
    (hf0 : 0 < fadePortion) (hf : fadePortion ≤ 1 / 2) (age : ℚ)
    (hge : lifespan * fadePortion ≤ age) (hle : age ≤ lifespan * (1 - fadePortion)) :
    getOpacity age lifespan fadePortion = 1 := by
  unfold getOpacity
  have hb1pos : (0 : ℚ) < lifespan * fadePortion := mul_pos hl hf0
  have hnot : ¬ (age < 0 ∨ age > lifespan) := by
    push_neg
    exact ⟨by linarith, by nlinarith⟩
  rw [if_neg hnot, if_neg (not_lt.mpr hge), if_neg (not_lt.mpr hle)]

/-- The opacity always lies in the unit interval. -/
theorem getOpacity_mem_unit (age lifespan fadePortion : ℚ) (hl : 0 < lifespan)
    (hf0 : 0 < fadePortion) (hf : fadePortion ≤ 1 / 2) :
    0 ≤ getOpacity age lifespan fadePortion ∧
      getOpacity age lifespan fadePortion ≤ 1 := by
  have hb1pos : (0 : ℚ) < lifespan * fadePortion := mul_pos hl hf0
  by_cases h1 : age < 0 ∨ age > lifespan
  · rw [getOpacity_zero h1]
    norm_num
  · push_neg at h1
    by_cases h2 : age < lifespan * fadePortion
    · rw [getOpacity_rampin hl hf0 hf h1.1 h2]
      constructor
      · exact div_nonneg h1.1 (le_of_lt hb1pos)
      · rw [div_le_one hb1pos]
        exact le_of_lt h2
    · push_neg at h2
      by_cases h3 : lifespan * (1 - fadePortion) < age
      · rw [getOpacity_rampdown hl hf0 hf h3 h1.2]
        have hq1 : (age - lifespan * (1 - fadePortion)) / (lifespan * fadePortion) ≤ 1 := by
          rw [div_le_one hb1pos]
          nlinarith [h1.2]
        have hq0 : 0 ≤ (age - lifespan * (1 - fadePortion)) / (lifespan * fadePortion) :=
          div_nonneg (by linarith) (le_of_lt hb1pos)
        constructor <;> linarith
      · push_neg at h3
        rw [getOpacity_one lifespan fadePortion hl hf0 hf age h2 h3]
        norm_num

/-- Near the steady-state plateau the opacity differs from 1 by at most the
distance to the plateau scaled by the ramp slope. -/
theorem getOpacity_near_one (lifespan fadePortion : ℚ) (hl : 0 < lifespan)
    (hf0 : 0 < fadePortion) (hf : fadePortion ≤ 1 / 2) (a : ℚ)
    (ha0 : 0 < a) (hal : a < lifespan) (b : ℚ)
    (hb1 : lifespan * fadePortion ≤ b) (hb2 : b ≤ lifespan * (1 - fadePortion)) :
    |getOpacity a lifespan fadePortion - 1| ≤ |a - b| / (lifespan * fadePortion) := by
  have hb1pos : (0 : ℚ) < lifespan * fadePortion := mul_pos hl hf0
  rcases lt_or_le a (lifespan * fadePortion) with hlt | hge
  · rw [getOpacity_rampin hl hf0 hf (le_of_lt ha0) hlt]
    have heq : a / (lifespan * fadePortion) - 1 =
        (a - lifespan * fadePortion) / (lifespan * fadePortion) := by
      field_simp
    rw [heq, abs_div, abs_of_pos hb1pos]
    apply (div_le_div_iff_of_pos_right hb1pos).mpr
    rw [abs_of_nonpos (by linarith), abs_of_nonpos (by linarith)]
    linarith
  · rcases le_or_lt a (lifespan * (1 - fadePortion)) with hle2 | hgt2
    · rw [getOpacity_one lifespan fadePortion hl hf0 hf a hge hle2]
      simp only [sub_self, abs_zero]
      positivity
    · rw [getOpacity_rampdown hl hf0 hf hgt2 (le_of_lt hal)]
      have heq : 1 - (a - lifespan * (1 - fadePortion)) / (lifespan * fadePortion) - 1 =
          -((a - lifespan * (1 - fadePortion)) / (lifespan * fadePortion)) := by ring
      rw [heq, abs_neg, abs_div, abs_of_pos hb1pos]
      have hnum : |a - lifespan * (1 - fadePortion)| ≤ |a - b| := by
        rw [abs_of_pos (by linarith), abs_of_pos (by linarith)]
        linarith
      exact (div_le_div_iff_of_pos_right hb1pos).mpr hnum

/-- The opacity function is continuous (epsilon-delta over ℚ) at every point
of the steady-state plateau, in particular at both ramp boundaries. -/
theorem getOpacity_continuous_at (lifespan fadePortion : ℚ) (hl : 0 < lifespan)
    (hf0 : 0 < fadePortion) (hf : fadePortion ≤ 1 / 2) (b : ℚ)
    (hb1 : lifespan * fadePortion ≤ b) (hb2 : b ≤ lifespan * (1 - fadePortion)) :
    ∀ ε : ℚ, 0 < ε → ∃ δ : ℚ, 0 < δ ∧ ∀ a : ℚ, |a - b| < δ →
      |getOpacity a lifespan fadePortion -
        getOpacity b lifespan fadePortion| < ε := by
  intro ε hε
  have hb1pos : (0 : ℚ) < lifespan * fadePortion := mul_pos hl hf0
  have hbpos : 0 < b := lt_of_lt_of_le hb1pos hb1
  have hbl : b < lifespan := lt_of_le_of_lt hb2 (by nlinarith)
  refine ⟨min (ε * (lifespan * fadePortion)) (min b (lifespan - b)),
    lt_min (by positivity) (lt_min hbpos (by linarith)), ?_⟩
  intro a ha
  have h1 : |a - b| < ε * (lifespan * fadePortion) := lt_of_lt_of_le ha (min_le_left _ _)
  have h2 : |a - b| < b := lt_of_lt_of_le ha (le_trans (min_le_right _ _) (min_le_left _ _))
  have h3 : |a - b| < lifespan - b :=
    lt_of_lt_of_le ha (le_trans (min_le_right _ _) (min_le_right _ _))
  have ha0 : 0 < a := by
    have := abs_lt.mp h2
    linarith [this.1]
  have hal : a < lifespan := by
    have := abs_lt.mp h3
    linarith [this.2]
  rw [getOpacity_one lifespan fadePortion hl hf0 hf b hb1 hb2]
  calc |getOpacity a lifespan fadePortion - 1| ≤ |a - b| / (lifespan * fadePortion) :=
      getOpacity_near_one lifespan fadePortion hl hf0 hf a ha0 hal b hb1 hb2
    _ < ε := by
      rw [div_lt_iff hb1pos]
      linarith [h1]

/-- C4: the opacity lifecycle function returns 0 outside `[0, lifespan]`, the
linear fade-in ramp on `[0, lifespan*fadePortion)`, the linear ramp-down on
`(lifespan*(1-fadePortion), lifespan]`, and 1 on the steady-state plateau; its
value always lies in `[0, 1]`, and it is continuous at both ramp boundaries. -/
theorem getOpacity_lifecycle_spec (lifespan fadePortion : ℚ) (hl : 0 < lifespan)
    (hf0 : 0 < fadePortion) (hf : fadePortion ≤ 1 / 2) (age : ℚ) :
    ((age < 0 ∨ age > lifespan) → getOpacity age lifespan fadePortion = 0) ∧
    (0 ≤ age → age < lifespan * fadePortion →
      getOpacity age lifespan fadePortion = age / (lifespan * fadePortion)) ∧
    (lifespan * (1 - fadePortion) < age → age ≤ lifespan →
      getOpacity age lifespan fadePortion =
        1 - (age - lifespan * (1 - fadePortion)) / (lifespan * fadePortion)) ∧
    (lifespan * fadePortion ≤ age → age ≤ lifespan * (1 - fadePortion) →
      getOpacity age lifespan fadePortion = 1) ∧
    (0 ≤ getOpacity age lifespan fadePortion ∧
      getOpacity age lifespan fadePortion ≤ 1) ∧
    (∀ ε : ℚ, 0 < ε → ∃ δ : ℚ, 0 < δ ∧ ∀ a : ℚ,
      |a - lifespan * fadePortion| < δ →
      |getOpacity a lifespan fadePortion -
        getOpacity (lifespan * fadePortion) lifespan fadePortion| < ε) ∧
    (∀ ε : ℚ, 0 < ε → ∃ δ : ℚ, 0 < δ ∧ ∀ a : ℚ,
      |a - lifespan * (1 - fadePortion)| < δ →
      |getOpacity a lifespan fadePortion -
        getOpacity (lifespan * (1 - fadePortion)) lifespan fadePortion| < ε) := by
  have hb12 : lifespan * fadePortion ≤ lifespan * (1 - fadePortion) := by nlinarith
  refine ⟨getOpacity_zero, getOpacity_rampin hl hf0 hf,
    fun h2 hle => getOpacity_rampdown hl hf0 hf h2 hle,
    getOpacity_one lifespan fadePortion hl hf0 hf age,
    getOpacity_mem_unit age lifespan fadePortion hl hf0 hf,
    getOpacity_continuous_at lifespan fadePortion hl hf0 hf
      (lifespan * fadePortion) (le_refl _) hb12,
    getOpacity_continuous_at lifespan fadePortion hl hf0 hf
      (lifespan * (1 - fadePortion)) hb12 (le_refl _)⟩

/-- Witness for C4 at the chart's own constants and a steady-state age. -/
theorem getOpacity_lifecycle_spec_witness :
    getOpacity (1 / 2) 1 (1 / 20) = 1 :=
  (getOpacity_lifecycle_spec 1 (1 / 20) (by norm_num) (by norm_num) (by norm_num)
    (1 / 2)).2.2.2.1 (by norm_num) (by norm_num)

end FlowChart
